import Mathlib

/-!
Verification of the hugo-ai similarity pipeline against a shallow embedding of
the chunker in `src/article.rs` and the similarity / related-list code in
`src/similar/mod.rs`.

Modelling conventions:
* Article bodies are lists of bytes (`List Nat`), mirroring Rust's
  byte-indexed string operations (`body.len()`, `body.as_bytes()[i]`,
  `split_off`); byte 32 is the ASCII space, byte 10 is a newline.
* The `f64` arithmetic of the similarity engine is modelled over `ℝ`
  (the division-by-zero that produces a `NaN` at runtime becomes the real
  division by zero, which Lean evaluates to `0`); the similarity values
  consumed by the write stage are plain data there and are modelled over `ℚ`
  so that the threshold comparison is decidable.
* Rust's `anyhow::Result` and `panic!` are modelled by the `Outcome` type
  below, which keeps a recoverable error (`err`) distinct from a process
  abort (`panicked`).
-/

namespace HugoAI

/-- Constant `CHUNK_SIZE` from `src/article.rs` line 8. -/
def CHUNK_SIZE : Nat := 2000

/-- Constant `MIN_CHUNK` from `src/article.rs` line 9. -/
def MIN_CHUNK : Nat := 2500

/-- Newline byte, `b'\n'`. -/
def NL : Nat := 10

/-- Space byte, `b' '`. -/
def SP : Nat := 32

/-- Inner `while` loop of the chunking code in `Article::parse`
(`src/article.rs` lines 37-40): starting at `pos`, advance while the index is
in bounds and the byte there is not a space, and return the final index.
Out-of-bounds access cannot occur: the byte is only inspected under the
`pos < body.length` guard (`getD` with default `0` stands for the guarded
`body.as_bytes()[split_pos]`). -/
def findSplit (body : List Nat) (pos : Nat) : Nat :=
  if h : pos < body.length ∧ body.getD pos 0 ≠ SP then findSplit body (pos + 1) else pos
termination_by body.length - pos
decreasing_by
  omega

/-- Chunking loop of `Article::parse` (`src/article.rs` lines 35-54).
`header` is the already-joined two-line header `[title, date].join("\n")`.
While the body is longer than `MIN_CHUNK`, the body is split at
`findSplit body CHUNK_SIZE` (Rust's `split_off`), and the chunk
`header ++ "\n\n" ++ front` is emitted; the final chunk, emitted
unconditionally, is `header ++ remainder` (the source appends no blank line
in the final push, lines 52-54). -/
def parseChunks (header body : List Nat) : List (List Nat) :=
  if MIN_CHUNK < body.length then
    (header ++ [NL, NL] ++ body.take (findSplit body CHUNK_SIZE))
      :: parseChunks header (body.drop (findSplit body CHUNK_SIZE))
  else [header ++ body]
termination_by body.length
decreasing_by
  have key : ∀ (d p : Nat), body.length - p ≤ d → p ≤ findSplit body p := by
    intro d
    induction d with
    | zero =>
      intro p hp
      rw [findSplit]
      split
      · next hc => exact absurd hc.1 (by omega)
      · exact Nat.le_refl p
    | succ d ih =>
      intro p hp
      rw [findSplit]
      split
      · next hc => exact Nat.le_trans (Nat.le_succ p) (ih (p + 1) (by omega))
      · exact Nat.le_refl p
  have h2 : (2000 : Nat) ≤ findSplit body CHUNK_SIZE :=
    key body.length CHUNK_SIZE (Nat.sub_le _ _)
  simp only [List.length_drop]
  omega

/-- Positions (as indices into the original body) at which the loop of
`Article::parse` splits the body: the same recursion as `parseChunks`, with
each recursive position translated back by the amount already consumed. -/
def splitPositions (body : List Nat) : List Nat :=
  if MIN_CHUNK < body.length then
    findSplit body CHUNK_SIZE
      :: (splitPositions (body.drop (findSplit body CHUNK_SIZE))).map
           (fun q => q + findSplit body CHUNK_SIZE)
  else []
termination_by body.length
decreasing_by
  have key : ∀ (d p : Nat), body.length - p ≤ d → p ≤ findSplit body p := by
    intro d
    induction d with
    | zero =>
      intro p hp
      rw [findSplit]
      split
      · next hc => exact absurd hc.1 (by omega)
      · exact Nat.le_refl p
    | succ d ih =>
      intro p hp
      rw [findSplit]
      split
      · next hc => exact Nat.le_trans (Nat.le_succ p) (ih (p + 1) (by omega))
      · exact Nat.le_refl p
  have h2 : (2000 : Nat) ≤ findSplit body CHUNK_SIZE :=
    key body.length CHUNK_SIZE (Nat.sub_le _ _)
  simp only [List.length_drop]
  omega

/-- Recover a chunk's body slice from the full chunk string: the chunks
emitted inside the loop carry the `header ++ "\n\n"` prelude, the final chunk
carries the bare `header`, so the longer prelude is removed when present and
the bare header otherwise. -/
def stripHeader (header chunk : List Nat) : List Nat :=
  if chunk.take (header.length + 2) = header ++ [NL, NL] then
    chunk.drop (header.length + 2)
  else chunk.drop header.length

/-- Continuation byte of a multi-byte UTF-8 character (second and later
bytes), `0x80 ≤ b ≤ 0xBF`. -/
def contByte (b : Nat) : Prop := 128 ≤ b ∧ b ≤ 191

/-- Well-formed UTF-8 byte sequences: a sequence of 1-, 2-, 3- and 4-byte
characters with the standard lead-byte ranges, each followed by continuation
bytes. (Surrogate and overlong exclusions are not modelled; the development
only relies on the fact that an ASCII byte never occurs inside a multi-byte
character.) -/
inductive Utf8Valid : List Nat → Prop where
  | nil : Utf8Valid []
  | one : ∀ {b : Nat} {rest : List Nat}, b ≤ 127 → Utf8Valid rest →
      Utf8Valid (b :: rest)
  | two : ∀ {b c : Nat} {rest : List Nat}, 194 ≤ b → b ≤ 223 → contByte c →
      Utf8Valid rest → Utf8Valid (b :: c :: rest)
  | three : ∀ {b c d : Nat} {rest : List Nat}, 224 ≤ b → b ≤ 239 →
      contByte c → contByte d → Utf8Valid rest → Utf8Valid (b :: c :: d :: rest)
  | four : ∀ {b c d e : Nat} {rest : List Nat}, 240 ≤ b → b ≤ 244 →
      contByte c → contByte d → contByte e → Utf8Valid rest →
      Utf8Valid (b :: c :: d :: e :: rest)

/-- Position `p` is a character boundary of the byte sequence `l`: the bytes
before `p` and the bytes from `p` on are both well-formed UTF-8 (so `p` does
not fall inside a multi-byte character). This is the precondition of Rust's
`String::split_off`. -/
def Utf8Boundary (l : List Nat) (p : Nat) : Prop :=
  ∃ pre suf, l = pre ++ suf ∧ pre.length = p ∧ Utf8Valid pre ∧ Utf8Valid suf

/-- Outcome of running a fallible piece of Rust code: a value, a recoverable
`anyhow` error carried to the caller, or a `panic` (process abort). -/
inductive Outcome (α : Type) where
  | ok : α → Outcome α
  | err : String → Outcome α
  | panicked : String → Outcome α
deriving DecidableEq

/-- Dot product of two vectors as computed by `cosine_similarity`
(`src/similar/mod.rs` line 131): `zip`, multiply pointwise, sum. -/
noncomputable def dot_product (a b : List ℝ) : ℝ :=
  ((a.zip b).map (fun p => p.1 * p.2)).sum

/-- Euclidean norm of a vector as computed by `cosine_similarity`
(`src/similar/mod.rs` lines 133-134). -/
noncomputable def magnitude (a : List ℝ) : ℝ :=
  Real.sqrt ((a.map (fun x => x * x)).sum)

/-- Embedding of `cosine_similarity` (`src/similar/mod.rs` lines 126-137):
on a length mismatch the Rust code executes `panic!`, otherwise it returns
the dot product divided by the product of the magnitudes. -/
noncomputable def cosine_similarity (a b : List ℝ) : Outcome ℝ :=
  if a.length ≠ b.length then
    .panicked "Vectors a and b must be of the same length"
  else
    .ok (dot_product a b / (magnitude a * magnitude b))

/-- Inner `for` loop of `compare_articles` (`src/similar/mod.rs`
lines 312-315): compare one chunk of article `a` against every chunk of
article `b`, collecting the similarities; a panic inside
`cosine_similarity` aborts the whole loop. -/
noncomputable def innerLoop (a : List ℝ) : List (List ℝ) → Outcome (List ℝ)
  | [] => .ok []
  | b :: rest =>
    match cosine_similarity a b with
    | .ok v =>
      match innerLoop a rest with
      | .ok vs => .ok (v :: vs)
      | .err m => .err m
      | .panicked m => .panicked m
    | .err m => .err m
    | .panicked m => .panicked m

/-- Outer `for` loop of `compare_articles` (`src/similar/mod.rs`
lines 311-316), concatenating the per-chunk similarity lists in order. -/
noncomputable def outerLoop (aChunks bChunks : List (List ℝ)) : Outcome (List ℝ) :=
  match aChunks with
  | [] => .ok []
  | a :: rest =>
    match innerLoop a bChunks with
    | .ok vs =>
      match outerLoop rest bChunks with
      | .ok vss => .ok (vs ++ vss)
      | .err m => .err m
      | .panicked m => .panicked m
    | .err m => .err m
    | .panicked m => .panicked m

/-- Embedding of `compare_articles` (`src/similar/mod.rs` lines 303-318),
with the two articles' stored chunk embeddings (as returned by
`load_embed_chunks`, an unembedded chunk contributing `[]`) passed in
directly: run the nested loops, then return `simis.sum / simis.len()`.
The division by zero that yields `NaN` in `f64` when `simis` is empty is the
real division by zero here. -/
noncomputable def compare_articles (aChunks bChunks : List (List ℝ)) : Outcome ℝ :=
  match outerLoop aChunks bChunks with
  | .ok simis => .ok (simis.sum / (simis.length : ℝ))
  | .err m => .err m
  | .panicked m => .panicked m

/-- Cosine similarity as worded by the spec: dot product divided by the
product of the Euclidean norms. -/
noncomputable def cosineSpec (a b : List ℝ) : ℝ :=
  dot_product a b / (magnitude a * magnitude b)

/-- Modelled from the spec wording of `pairSimilarity`: the arithmetic mean,
over all `(chunkA, chunkB)` cross pairs, of the cosine similarity of the two
chunks' embeddings. -/
noncomputable def pairSimilaritySpec (aChunks bChunks : List (List ℝ)) : ℝ :=
  ((aChunks.map (fun a => (bChunks.map (fun b => cosineSpec a b)).sum)).sum) /
    ((aChunks.length * bChunks.length : ℕ) : ℝ)

/-- Constant `MIN_SIMILARITY` from `src/similar/mod.rs` line 20; the source
literal `0.4` is the rational `2/5` here. -/
def MIN_SIMILARITY : ℚ := 2 / 5

/-- Row of the `article` table as used by the Write stage (`src/similar/mod.rs`):
internal id, stored filename, draft flag. -/
structure DbArticle where
  id : Nat
  filename : String
  is_draft : Bool

/-- Row of the `article_similiarity` table: the two article ids and the
stored scalar similarity. -/
structure SimPair where
  article_a : Nat
  article_b : Nat
  similarity : ℚ

/-- Candidate rows of the SQL query in `do_write` (`src/similar/mod.rs`
lines 191-199) for article `x`, before `ORDER BY` and `LIMIT`: the
`(filename, similarity)` of every pair row joined with a non-draft article
touching `x` on the other side. -/
def candidates (arts : List DbArticle) (pairs : List SimPair) (x : Nat) :
    List (String × ℚ) :=
  (pairs.map (fun s =>
    (arts.filter (fun a =>
      !a.is_draft &&
        ((s.article_a == x && s.article_b == a.id) ||
         (s.article_a == a.id && s.article_b == x)))).map
      (fun a => (a.filename, s.similarity)))).flatten

/-- Rows arranged in descending similarity order, the guarantee of the
query's `ORDER BY s.similarity DESC`. -/
def SortedDesc (rows : List (String × ℚ)) : Prop :=
  List.Pairwise (fun r1 r2 => r2.2 ≤ r1.2) rows

/-- Final component of a path, modelling `Path::file_name` as used on the
stored filenames in `do_write` (line 214). -/
def file_name (s : String) : String := (s.splitOn "/").getLastD s

/-- Filter applied in the row loop of `do_write` (lines 209-212): a row is
kept unless `similarity < MIN_SIMILARITY` (the `continue`). -/
def keepRow (r : String × ℚ) : Bool := !decide (r.2 < MIN_SIMILARITY)

/-- Related list as the code computes it from the descending-ordered query
rows (`src/similar/mod.rs` lines 191-216): the SQL `LIMIT 3` first, then the
Rust-side threshold filter, then `file_name` of each surviving row. -/
def relatedCode (rows : List (String × ℚ)) : List String :=
  ((rows.take 3).filter keepRow).map (fun r => file_name r.1)

/-- Modelled from the spec wording of `relatedFor`: of the rows sorted
descending by similarity, drop any below the threshold, take the top 3, map
each survivor to its filename base-name. -/
def relatedForSpec (rows : List (String × ℚ)) : List String :=
  ((rows.filter keepRow).take 3).map (fun r => file_name r.1)

/-- An article's file as the Write stage sees it: the `related` list of its
extracted front matter, and the rest of the document. -/
structure Post where
  related : List String
  body : String
deriving DecidableEq

/-- Per-article step of `do_write` (`src/similar/mod.rs` lines 202-258) after
the related list has been computed: if the computed list is empty the file is
skipped (line 218), if the extracted front matter already carries a non-empty
related list the file is skipped (line 227), otherwise the file is rewritten
with the computed list and the same body. `none` means the file is not
touched. -/
def writeStep (related : List String) (p : Post) : Option Post :=
  if related.isEmpty then none
  else if !p.related.isEmpty then none
  else some { related := related, body := p.body }

/-- State of an article's file after one run of the Write stage with computed
related list `related`. -/
def runWrite (related : List String) (p : Post) : Post :=
  (writeStep related p).getD p

/-- Lower bound on the scan: the returned split position never moves left of
the starting offset. -/
theorem findSplit_ge (body : List Nat) (pos : Nat) : pos ≤ findSplit body pos := by
  have key : ∀ (d p : Nat), body.length - p ≤ d → p ≤ findSplit body p := by
    intro d
    induction d with
    | zero =>
      intro p hp
      rw [findSplit]
      split
      · next hc => exact absurd hc.1 (by omega)
      · exact Nat.le_refl p
    | succ d ih =>
      intro p hp
      rw [findSplit]
      split
      · next hc => exact Nat.le_trans (Nat.le_succ p) (ih (p + 1) (by omega))
      · exact Nat.le_refl p
  exact key body.length pos (Nat.sub_le _ _)

/-- Exit condition of the scan: starting in bounds, it stops either at the end
of the body or at a space byte. -/
theorem findSplit_exit (body : List Nat) (pos : Nat) (h : pos ≤ body.length) :
    findSplit body pos = body.length ∨
      (findSplit body pos < body.length ∧ body.getD (findSplit body pos) 0 = SP) := by
  have key : ∀ (d p : Nat), body.length - p ≤ d → p ≤ body.length →
      findSplit body p = body.length ∨
        (findSplit body p < body.length ∧ body.getD (findSplit body p) 0 = SP) := by
    intro d
    induction d with
    | zero =>
      intro p hp hple
      rw [findSplit]
      split
      · next hc => exact absurd hc.1 (by omega)
      · exact Or.inl (by omega)
    | succ d ih =>
      intro p hp hple
      rw [findSplit]
      split
      · next hc => exact ih (p + 1) (by omega) hc.1
      · next hc =>
        rcases Nat.lt_or_ge p body.length with hlt | hge
        · right
          refine ⟨hlt, ?_⟩
          by_contra hne
          exact hc ⟨hlt, hne⟩
        · exact Or.inl (by omega)
  exact key body.length pos (Nat.sub_le _ _) h

/-- One-step evaluation of the scan when it stops. -/
theorem findSplit_stop (body : List Nat) (pos : Nat)
    (h : ¬(pos < body.length ∧ body.getD pos 0 ≠ SP)) : findSplit body pos = pos := by
  rw [findSplit, dif_neg h]

/-- One-step evaluation of the scan when it advances. -/
theorem findSplit_step (body : List Nat) (pos : Nat)
    (h1 : pos < body.length) (h2 : body.getD pos 0 ≠ SP) :
    findSplit body pos = findSplit body (pos + 1) := by
  conv_lhs => rw [findSplit]
  rw [dif_pos ⟨h1, h2⟩]

/-- Dropping then indexing is indexing at the translated position. -/
theorem getD_drop (l : List Nat) (i j : Nat) : (l.drop i).getD j 0 = l.getD (i + j) 0 := by
  simp [List.getD_eq_getElem?_getD, List.getElem?_drop]

/-- Every split position lies at or beyond the `CHUNK_SIZE` offset, within the
body, and is either the end of the body or the index of a space byte. -/
theorem splitPositions_spec : ∀ (k : Nat) (body : List Nat), body.length ≤ k →
    ∀ p ∈ splitPositions body, CHUNK_SIZE ≤ p ∧ p ≤ body.length ∧
      (p = body.length ∨ (p < body.length ∧ body.getD p 0 = SP)) := by
  intro k
  induction k with
  | zero =>
    intro body hk p hp
    rw [splitPositions] at hp
    split at hp
    · next hlen => exact absurd hlen (by omega)
    · exact absurd hp (List.not_mem_nil p)
  | succ k ih =>
    intro body hk p hp
    rw [splitPositions] at hp
    split at hp
    · next hlen =>
      have hlen' : (2500 : Nat) < body.length := hlen
      have hge : (2000 : Nat) ≤ findSplit body CHUNK_SIZE := findSplit_ge body CHUNK_SIZE
      have hexit := findSplit_exit body CHUNK_SIZE (by
        show (2000 : Nat) ≤ body.length
        omega)
      rcases List.mem_cons.mp hp with rfl | hmem
      · refine ⟨hge, ?_, ?_⟩
        · rcases hexit with h | h
          · omega
          · omega
        · rcases hexit with h | h
          · exact Or.inl h
          · exact Or.inr h
      · rcases List.mem_map.mp hmem with ⟨q, hq, rfl⟩
        have hdlen : (body.drop (findSplit body CHUNK_SIZE)).length ≤ k := by
          rw [List.length_drop]
          omega
        have hrec := ih (body.drop (findSplit body CHUNK_SIZE)) hdlen q hq
        rw [List.length_drop] at hrec
        have hple : findSplit body CHUNK_SIZE ≤ body.length := by
          rcases hexit with h | h
          · omega
          · omega
        refine ⟨by omega, by omega, ?_⟩
        rcases hrec.2.2 with h | ⟨hlt, hsp⟩
        · exact Or.inl (by omega)
        · refine Or.inr ⟨by omega, ?_⟩
          rw [getD_drop] at hsp
          rw [show q + findSplit body CHUNK_SIZE = findSplit body CHUNK_SIZE + q by omega]
          exact hsp
    · exact absurd hp (List.not_mem_nil p)

/-- Concatenation of well-formed UTF-8 sequences is well-formed. -/
theorem utf8_append {l1 l2 : List Nat} (h1 : Utf8Valid l1) (h2 : Utf8Valid l2) :
    Utf8Valid (l1 ++ l2) := by
  induction h1 with
  | nil => exact h2
  | one hb _ ih => exact Utf8Valid.one hb ih
  | two hb1 hb2 hc _ ih => exact Utf8Valid.two hb1 hb2 hc ih
  | three hb1 hb2 hc hd _ ih => exact Utf8Valid.three hb1 hb2 hc hd ih
  | four hb1 hb2 hc hd he _ ih => exact Utf8Valid.four hb1 hb2 hc hd he ih

/-- Replicating a single ASCII byte yields well-formed UTF-8. -/
theorem utf8_replicate_ascii (n b : Nat) (h : b ≤ 127) :
    Utf8Valid (List.replicate n b) := by
  induction n with
  | zero => exact Utf8Valid.nil
  | succ n ih => exact Utf8Valid.one h ih

/-- In well-formed UTF-8, the index of an ASCII space byte is a character
boundary: a continuation byte is at least `0x80`, so the space cannot sit
inside a multi-byte character. -/
theorem utf8_space_boundary : ∀ {l : List Nat}, Utf8Valid l →
    ∀ p, p < l.length → l.getD p 0 = SP → Utf8Boundary l p := by
  intro l hv
  induction hv with
  | nil =>
    intro p hp _
    exact absurd hp (by simp)
  | @one b rest hb hr ih =>
    intro p hp hsp
    match p with
    | 0 => exact ⟨[], b :: rest, rfl, rfl, Utf8Valid.nil, Utf8Valid.one hb hr⟩
    | q + 1 =>
      obtain ⟨pre, suf, heq, hlen, hv1, hv2⟩ :=
        ih q (by simpa using hp) (by simpa using hsp)
      exact ⟨b :: pre, suf, by simp [heq], by simp [hlen], Utf8Valid.one hb hv1, hv2⟩
  | @two b c rest hb1 hb2 hc hr ih =>
    intro p hp hsp
    match p with
    | 0 => exact ⟨[], _, rfl, rfl, Utf8Valid.nil, Utf8Valid.two hb1 hb2 hc hr⟩
    | 1 =>
      have h32 : c = 32 := hsp
      have h128 : 128 ≤ c := hc.1
      omega
    | q + 2 =>
      obtain ⟨pre, suf, heq, hlen, hv1, hv2⟩ :=
        ih q (by simpa using hp) (by simpa using hsp)
      exact ⟨b :: c :: pre, suf, by simp [heq], by simp [hlen],
        Utf8Valid.two hb1 hb2 hc hv1, hv2⟩
  | @three b c d rest hb1 hb2 hc hd hr ih =>
    intro p hp hsp
    match p with
    | 0 => exact ⟨[], _, rfl, rfl, Utf8Valid.nil, Utf8Valid.three hb1 hb2 hc hd hr⟩
    | 1 =>
      have h32 : c = 32 := hsp
      have h128 : 128 ≤ c := hc.1
      omega
    | 2 =>
      have h32 : d = 32 := hsp
      have h128 : 128 ≤ d := hd.1
      omega
    | q + 3 =>
      obtain ⟨pre, suf, heq, hlen, hv1, hv2⟩ :=
        ih q (by simpa using hp) (by simpa using hsp)
      exact ⟨b :: c :: d :: pre, suf, by simp [heq], by simp [hlen],
        Utf8Valid.three hb1 hb2 hc hd hv1, hv2⟩
  | @four b c d e rest hb1 hb2 hc hd he hr ih =>
    intro p hp hsp
    match p with
    | 0 => exact ⟨[], _, rfl, rfl, Utf8Valid.nil, Utf8Valid.four hb1 hb2 hc hd he hr⟩
    | 1 =>
      have h32 : c = 32 := hsp
      have h128 : 128 ≤ c := hc.1
      omega
    | 2 =>
      have h32 : d = 32 := hsp
      have h128 : 128 ≤ d := hd.1
      omega
    | 3 =>
      have h32 : e = 32 := hsp
      have h128 : 128 ≤ e := he.1
      omega
    | q + 4 =>
      obtain ⟨pre, suf, heq, hlen, hv1, hv2⟩ :=
        ih q (by simpa using hp) (by simpa using hsp)
      exact ⟨b :: c :: d :: e :: pre, suf, by simp [heq], by simp [hlen],
        Utf8Valid.four hb1 hb2 hc hd he hv1, hv2⟩

/-- C10: on any well-formed UTF-8 body, the chunking loop of `Article::parse`
is safe: every position it passes to `split_off` is at least `CHUNK_SIZE`
(so each iteration shortens the remaining body by at least `CHUNK_SIZE` bytes
and the loop terminates), at most the body length (the scan only inspects
bytes under its bounds guard), and a UTF-8 character boundary (it is the end
of the body or the index of an ASCII space byte, which cannot occur inside a
multi-byte character). -/
theorem chunk_split_safe (body : List Nat) (p : Nat) (hv : Utf8Valid body)
    (hp : p ∈ splitPositions body) :
    CHUNK_SIZE ≤ p ∧ p ≤ body.length ∧ Utf8Boundary body p := by
  have hs := splitPositions_spec body.length body (le_refl _) p hp
  refine ⟨hs.1, hs.2.1, ?_⟩
  rcases hs.2.2 with h | ⟨hlt, hsp⟩
  · exact ⟨body, [], (List.append_nil body).symm, h.symm, hv, Utf8Valid.nil⟩
  · exact utf8_space_boundary hv p hlt hsp

/-- Indexing a replicated list inside its length gives the replicated byte. -/
theorem getD_replicate (n i b : Nat) (h : i < n) :
    (List.replicate n b).getD i 0 = b := by
  simp [List.getD_eq_getElem?_getD, List.getElem?_replicate, h]

/-- C10 witness: a concrete 2501-space body is well-formed UTF-8 and its one
split position, 2000, satisfies the safety bounds and lands on a boundary. -/
theorem chunk_split_safe_witness :
    CHUNK_SIZE ≤ 2000 ∧ 2000 ≤ (List.replicate 2501 SP).length ∧
      Utf8Boundary (List.replicate 2501 SP) 2000 := by
  have hv : Utf8Valid (List.replicate 2501 SP) := utf8_replicate_ascii 2501 SP (by decide)
  have hsplit : findSplit (List.replicate 2501 SP) 2000 = 2000 := by
    apply findSplit_stop
    intro hcon
    exact hcon.2 (getD_replicate 2501 2000 SP (by omega))
  have hpos : splitPositions (List.replicate 2501 SP) = [2000] := by
    rw [splitPositions]
    rw [if_pos (by rw [List.length_replicate]; decide)]
    rw [show findSplit (List.replicate 2501 SP) CHUNK_SIZE = 2000 from hsplit]
    rw [List.drop_replicate]
    rw [splitPositions]
    rw [if_neg (by rw [List.length_replicate]; decide)]
    rfl
  exact chunk_split_safe (List.replicate 2501 SP) 2000 hv (by rw [hpos]; simp)

/-- C9 (amended): split boundaries never fall inside a word, but the space
sits at the boundary, not before it: every split position chosen by the
chunker is either the index of a space byte (which then begins the following
chunk's body slice) or, when the forward scan from the `CHUNK_SIZE` offset
reaches the end of the body without meeting a space, the end of the body. -/
theorem split_points_at_space (body : List Nat) (p : Nat)
    (hp : p ∈ splitPositions body) :
    CHUNK_SIZE ≤ p ∧ p ≤ body.length ∧
      (p = body.length ∨ body.getD p 0 = SP) := by
  have hs := splitPositions_spec body.length body (le_refl _) p hp
  exact ⟨hs.1, hs.2.1, hs.2.2.elim Or.inl (fun h => Or.inr h.2)⟩

/-- C9 (amended) witness: the concrete 2501-space body splits at position
2000, a space byte. -/
theorem split_points_at_space_witness :
    CHUNK_SIZE ≤ 2000 ∧ 2000 ≤ (List.replicate 2501 SP).length ∧
      (2000 = (List.replicate 2501 SP).length ∨
        (List.replicate 2501 SP).getD 2000 0 = SP) := by
  have hsplit : findSplit (List.replicate 2501 SP) 2000 = 2000 := by
    apply findSplit_stop
    intro hcon
    exact hcon.2 (getD_replicate 2501 2000 SP (by omega))
  have hpos : splitPositions (List.replicate 2501 SP) = [2000] := by
    rw [splitPositions]
    rw [if_pos (by rw [List.length_replicate]; decide)]
    rw [show findSplit (List.replicate 2501 SP) CHUNK_SIZE = 2000 from hsplit]
    rw [List.drop_replicate]
    rw [splitPositions]
    rw [if_neg (by rw [List.length_replicate]; decide)]
    rfl
  exact split_points_at_space (List.replicate 2501 SP) 2000 (by rw [hpos]; simp)

/-- Stripping a loop chunk (with the blank-line prelude) leaves its slice. -/
theorem strip_loop_chunk (header slice : List Nat) :
    stripHeader header (header ++ [NL, NL] ++ slice) = slice := by
  unfold stripHeader
  have hlen : header.length + 2 = (header ++ [NL, NL]).length := by simp
  rw [if_pos (by rw [hlen]; exact List.take_left _ _)]
  rw [hlen]
  exact List.drop_left _ _

/-- Stripping the final chunk (bare header, no blank line) leaves the
remainder, provided the remainder does not itself begin with two newline
bytes (in the chunking loop it begins with a space or is empty). -/
theorem strip_final_chunk (header body : List Nat) (h : body.take 2 ≠ [NL, NL]) :
    stripHeader header (header ++ body) = body := by
  unfold stripHeader
  have htake : (header ++ body).take (header.length + 2) = header ++ body.take 2 := by
    rw [List.take_append_eq_append_take]
    rw [List.take_of_length_le (by omega)]
    congr 1
    congr 1
    omega
  rw [if_neg (by rw [htake]; exact fun hc => h (List.append_cancel_left hc))]
  exact List.drop_left _ _

/-- A list whose first two elements are `[NL, NL]` starts with `NL`. -/
theorem take_two_head (l : List Nat) (h : l.take 2 = [NL, NL]) : l.getD 0 0 = NL := by
  match l with
  | [] => simp at h
  | a :: t =>
    simp only [List.take_succ_cons] at h
    have : a = NL := (List.cons.injEq _ _ _ _).mp h |>.1
    simp [this]

/-- Concatenating the stripped chunk bodies reconstructs the body, for any
body that is either long enough to enter the loop or does not begin with two
newline bytes. -/
theorem parse_strip : ∀ (k : Nat) (header body : List Nat), body.length ≤ k →
    (MIN_CHUNK < body.length ∨ body.take 2 ≠ [NL, NL]) →
    ((parseChunks header body).map (stripHeader header)).flatten = body := by
  intro k
  induction k with
  | zero =>
    intro header body hk hcond
    have hb : body = [] := List.length_eq_zero.mp (by omega)
    subst hb
    rw [parseChunks, if_neg (by decide)]
    have hstrip := strip_final_chunk header [] (by decide)
    rw [List.append_nil] at hstrip
    simp [hstrip]
  | succ k ih =>
    intro header body hk hcond
    rw [parseChunks]
    split
    · next hlen =>
      have hlen' : (2500 : Nat) < body.length := hlen
      have hge : (2000 : Nat) ≤ findSplit body CHUNK_SIZE := findSplit_ge body CHUNK_SIZE
      have hexit := findSplit_exit body CHUNK_SIZE (by
        show (2000 : Nat) ≤ body.length
        omega)
      have hple : findSplit body CHUNK_SIZE ≤ body.length := by
        rcases hexit with h | h
        · omega
        · omega
      have hrest : ((parseChunks header (body.drop (findSplit body CHUNK_SIZE))).map
          (stripHeader header)).flatten = body.drop (findSplit body CHUNK_SIZE) := by
        apply ih
        · rw [List.length_drop]; omega
        · right
          intro hc
          have hhead := take_two_head _ hc
          rw [getD_drop] at hhead
          rcases hexit with h | h
          · rw [Nat.add_zero] at hhead
            have : body.getD body.length 0 = 0 := by
              simp [List.getD_eq_getElem?_getD, List.getElem?_eq_none (le_refl body.length)]
            rw [h] at hhead
            rw [this] at hhead
            exact absurd hhead (by decide)
          · rw [Nat.add_zero] at hhead
            rw [h.2] at hhead
            exact absurd hhead (by decide)
      rw [List.map_cons, List.flatten_cons, strip_loop_chunk, hrest]
      exact List.take_append_drop _ _
    · next hlen =>
      have hcond' : body.take 2 ≠ [NL, NL] := by
        rcases hcond with h | h
        · exact absurd h hlen
        · exact h
      simp [strip_final_chunk header body hcond']

/-- C7: for every body longer than `MIN_CHUNK`, concatenating, in order, the
body slice of every chunk produced by the chunker (each chunk with its
prepended header stripped) reconstructs the original body exactly. -/
theorem chunks_reconstruct_body (header body : List Nat) (h : MIN_CHUNK < body.length) :
    ((parseChunks header body).map (stripHeader header)).flatten = body :=
  parse_strip body.length header body (le_refl _) (Or.inl h)

/-- C7 witness: a concrete 2501-byte body is rebuilt from its chunks. -/
theorem chunks_reconstruct_body_witness :
    MIN_CHUNK < (List.replicate 2501 SP).length ∧
      ((parseChunks [104] (List.replicate 2501 SP)).map (stripHeader [104])).flatten =
        List.replicate 2501 SP := by
  constructor
  · rw [List.length_replicate]; decide
  · exact chunks_reconstruct_body [104] _ (by rw [List.length_replicate]; decide)

/-- C8: for every body no longer than `MIN_CHUNK`, the chunker produces
exactly one chunk, equal to the header followed directly by the body. -/
theorem single_chunk_short_body (header body : List Nat) (h : body.length ≤ MIN_CHUNK) :
    parseChunks header body = [header ++ body] := by
  rw [parseChunks, if_neg (by omega)]

/-- C8 witness: a concrete one-byte body yields the single chunk header+body. -/
theorem single_chunk_short_body_witness :
    ([97] : List Nat).length ≤ MIN_CHUNK ∧ parseChunks [104] [97] = [[104] ++ [97]] :=
  ⟨by decide, single_chunk_short_body [104] [97] (by decide)⟩

/-- Indexing past the head of a cons cell at a positive index. -/
theorem getD_cons_pos (a : Nat) (l : List Nat) (n : Nat) (h : 0 < n) :
    (a :: l).getD n 0 = l.getD (n - 1) 0 := by
  match n with
  | m + 1 =>
    rw [List.getD_cons_succ, Nat.add_sub_cancel]

/-- C9 counterexample: on the concrete body
`2000 x 'a', ' ', 2000 x 'a', ' ', 501 x 'b'` the chunker splits at
positions 2000 and 4001, and the character immediately before the second
boundary (index 4000) is `'a'`, not a space — refuting, at a boundary other
than the first, the claim that the character immediately before every split
boundary is a space. (The space sits at the boundary itself, as the first
byte of the following chunk.) -/
theorem split_before_not_space_cex :
    splitPositions (List.replicate 2000 97 ++
        SP :: (List.replicate 2000 97 ++ SP :: List.replicate 501 98)) = [2000, 4001] ∧
      (List.replicate 2000 97 ++
        SP :: (List.replicate 2000 97 ++ SP :: List.replicate 501 98)).getD (4001 - 1) 0 ≠ SP := by
  have hlen1 : (List.replicate 2000 (97 : Nat)).length = 2000 := List.length_replicate _ _
  have hlen : (List.replicate 2000 97 ++
      SP :: (List.replicate 2000 97 ++ SP :: List.replicate 501 98)).length = 4503 := by
    rw [List.length_append, List.length_cons, List.length_append, List.length_cons,
      List.length_replicate, List.length_replicate]
  have h1 : (List.replicate 2000 97 ++
      SP :: (List.replicate 2000 97 ++ SP :: List.replicate 501 98)).getD 2000 0 = SP := by
    rw [List.getD_append_right _ _ _ 2000 hlen1.le, hlen1, Nat.sub_self]
    exact List.getD_cons_zero
  have hsplit1 : findSplit (List.replicate 2000 97 ++
      SP :: (List.replicate 2000 97 ++ SP :: List.replicate 501 98)) 2000 = 2000 :=
    findSplit_stop _ _ (fun hc => hc.2 h1)
  have hdrop1 : (List.replicate 2000 97 ++
      SP :: (List.replicate 2000 97 ++ SP :: List.replicate 501 98)).drop 2000 =
      SP :: (List.replicate 2000 97 ++ SP :: List.replicate 501 98) := by
    have hdl := List.drop_left (List.replicate 2000 (97 : Nat))
      (SP :: (List.replicate 2000 97 ++ SP :: List.replicate 501 98))
    rw [hlen1] at hdl
    exact hdl
  have hrlen : (SP :: (List.replicate 2000 97 ++ SP :: List.replicate 501 98)).length = 2503 := by
    rw [List.length_cons, List.length_append, List.length_cons,
      List.length_replicate, List.length_replicate]
  have h2 : (SP :: (List.replicate 2000 97 ++ SP :: List.replicate 501 98)).getD 2000 0 = 97 := by
    rw [getD_cons_pos _ _ 2000 (by omega)]
    rw [show (2000 - 1 : Nat) = 1999 from by omega]
    rw [List.getD_append _ _ _ 1999 (by rw [hlen1]; omega)]
    exact getD_replicate 2000 1999 97 (by omega)
  have h3 : (SP :: (List.replicate 2000 97 ++ SP :: List.replicate 501 98)).getD 2001 0 = SP := by
    rw [getD_cons_pos _ _ 2001 (by omega)]
    rw [show (2001 - 1 : Nat) = 2000 from by omega]
    rw [List.getD_append_right _ _ _ 2000 hlen1.le, hlen1, Nat.sub_self]
    exact List.getD_cons_zero
  have hsplit2 : findSplit (SP :: (List.replicate 2000 97 ++ SP :: List.replicate 501 98))
      2000 = 2001 := by
    rw [findSplit_step _ 2000 (by rw [hrlen]; omega) (by rw [h2]; decide)]
    exact findSplit_stop _ _ (fun hc => hc.2 h3)
  have hdrop2 : (SP :: (List.replicate 2000 97 ++ SP :: List.replicate 501 98)).drop 2001 =
      SP :: List.replicate 501 98 := by
    rw [show (2001 : Nat) = 2000 + 1 from by omega, List.drop_succ_cons]
    have hdl := List.drop_left (List.replicate 2000 (97 : Nat)) (SP :: List.replicate 501 98)
    rw [hlen1] at hdl
    exact hdl
  have htail : splitPositions (SP :: List.replicate 501 (98 : Nat)) = [] := by
    rw [splitPositions,
      if_neg (by rw [List.length_cons, List.length_replicate]; decide)]
  have hr : splitPositions (SP :: (List.replicate 2000 97 ++ SP :: List.replicate 501 98)) =
      [2001] := by
    rw [splitPositions, if_pos (by rw [hrlen]; decide)]
    rw [show findSplit (SP :: (List.replicate 2000 97 ++ SP :: List.replicate 501 98))
        CHUNK_SIZE = 2001 from hsplit2]
    rw [hdrop2, htail]
    rfl
  constructor
  · rw [splitPositions, if_pos (by rw [hlen]; decide)]
    rw [show findSplit (List.replicate 2000 97 ++
        SP :: (List.replicate 2000 97 ++ SP :: List.replicate 501 98)) CHUNK_SIZE = 2000
        from hsplit1]
    rw [hdrop1, hr]
    rfl
  · rw [show (4001 - 1 : Nat) = 4000 from by omega]
    rw [List.getD_append_right _ _ _ 4000 (by rw [hlen1]; omega), hlen1]
    rw [show (4000 - 2000 : Nat) = 2000 from by omega]
    rw [getD_cons_pos _ _ 2000 (by omega)]
    rw [show (2000 - 1 : Nat) = 1999 from by omega]
    rw [List.getD_append _ _ _ 1999 (by rw [hlen1]; omega)]
    rw [getD_replicate 2000 1999 97 (by omega)]
    decide

/-- On a descending-sorted row list, applying the SQL `LIMIT 3` before the
threshold filter gives the same rows as filtering first and limiting after:
the kept rows form a prefix of the sorted list. -/
theorem filter_take_sorted : ∀ (rows : List (String × ℚ)), SortedDesc rows →
    ∀ (n : Nat), (rows.take n).filter keepRow = (rows.filter keepRow).take n := by
  intro rows
  induction rows with
  | nil =>
    intro _ n
    simp
  | cons r rest ih =>
    intro hs n
    have hs' : SortedDesc rest := hs.of_cons
    cases n with
    | zero => simp
    | succ n =>
      rw [List.take_succ_cons, List.filter_cons, List.filter_cons]
      cases hk : keepRow r with
      | true =>
        rw [if_pos rfl, if_pos rfl]
        rw [List.take_succ_cons, ih hs' n]
      | false =>
        rw [if_neg Bool.false_ne_true, if_neg Bool.false_ne_true]
        have hr : r.2 < MIN_SIMILARITY := by
          have := hk
          unfold keepRow at this
          simpa using this
        have hall : ∀ x, x ∈ rest → keepRow x = false := by
          intro x hx
          have hle : x.2 ≤ r.2 := (List.pairwise_cons.mp hs).1 x hx
          have hlt : x.2 < MIN_SIMILARITY := lt_of_le_of_lt hle hr
          unfold keepRow
          rw [decide_eq_true hlt]
          rfl
        have h1 : rest.filter keepRow = [] :=
          List.filter_eq_nil_iff.mpr (fun x hx => by rw [hall x hx]; exact Bool.false_ne_true)
        have h2 : (rest.take n).filter keepRow = [] :=
          List.filter_eq_nil_iff.mpr
            (fun x hx => by rw [hall x (List.take_subset n rest hx)]; exact Bool.false_ne_true)
        rw [h1, h2, List.take_nil]

/-- C4: for a non-draft article, with `rows` the query result (a permutation
of the candidate rows — pairs touching the article joined with a non-draft
peer — arranged in descending similarity order), the related list the code
computes equals the spec's list: sort descending, drop entries below the
threshold, take at most 3, map each survivor to its filename base-name; and
when that list is empty the article's file is skipped. -/
theorem related_list_spec (arts : List DbArticle) (pairs : List SimPair) (x : Nat)
    (rows : List (String × ℚ)) (p : Post)
    (hrows : rows.Perm (candidates arts pairs x)) (hs : SortedDesc rows) :
    relatedCode rows = relatedForSpec rows ∧
      (relatedCode rows = [] → writeStep (relatedCode rows) p = none) := by
  constructor
  · unfold relatedCode relatedForSpec
    rw [filter_take_sorted rows hs 3]
  · intro h
    rw [h]
    rfl

/-- C4 witness: a one-pair, one-peer database instance. -/
theorem related_list_spec_witness :
    relatedCode [("b.md", (1 : ℚ) / 2)] = relatedForSpec [("b.md", (1 : ℚ) / 2)] ∧
      (relatedCode [("b.md", (1 : ℚ) / 2)] = [] →
        writeStep (relatedCode [("b.md", (1 : ℚ) / 2)]) ⟨[], "x"⟩ = none) := by
  have hc : candidates [⟨2, "b.md", false⟩] [⟨1, 2, (1 : ℚ) / 2⟩] 1 =
      [("b.md", (1 : ℚ) / 2)] := rfl
  exact related_list_spec [⟨2, "b.md", false⟩] [⟨1, 2, (1 : ℚ) / 2⟩] 1
    [("b.md", (1 : ℚ) / 2)] ⟨[], "x"⟩ (hc ▸ List.Perm.refl _)
    (List.pairwise_singleton _ _)

/-- C5: the similarity threshold is an inclusive lower bound: a row whose
similarity is exactly `MIN_SIMILARITY` is kept (and mapped to its filename
base-name), while any row strictly below it is dropped. -/
theorem min_similarity_inclusive (f : String) (s : ℚ) (h : s < MIN_SIMILARITY) :
    relatedCode [(f, MIN_SIMILARITY)] = [file_name f] ∧ relatedCode [(f, s)] = [] := by
  constructor
  · unfold relatedCode keepRow
    simp
  · unfold relatedCode keepRow
    simp [h]

/-- C5 witness: at the concrete boundary values `2/5` and `1/5`. -/
theorem min_similarity_inclusive_witness :
    relatedCode [("a.md", MIN_SIMILARITY)] = [file_name "a.md"] ∧
      relatedCode [("a.md", (1 : ℚ) / 5)] = [] :=
  min_similarity_inclusive "a.md" ((1 : ℚ) / 5) (by norm_num [MIN_SIMILARITY])

/-- C6: the Write stage never overwrites a non-empty existing related list
(such a file is left untouched), and a second run with the same computed
related list touches no file: after one run, the per-article write step is a
no-op. -/
theorem write_no_overwrite_idempotent (c : List String) (p : Post) :
    (p.related ≠ [] → writeStep c p = none) ∧ writeStep c (runWrite c p) = none := by
  constructor
  · intro h
    simp [writeStep, h]
  · unfold runWrite
    by_cases hc : c = []
    · simp [writeStep, hc]
    · by_cases hp : p.related = []
      · simp [writeStep, hc, hp]
      · simp [writeStep, hc, hp]

/-- C6 witness: a file whose front matter already lists a related article is
not rewritten, and the second run after a first write is a no-op. -/
theorem write_no_overwrite_idempotent_witness :
    writeStep ["x.md"] ⟨["y.md"], "b"⟩ = none ∧
      writeStep ["x.md"] (runWrite ["x.md"] ⟨["y.md"], "b"⟩) = none :=
  ⟨(write_no_overwrite_idempotent ["x.md"] ⟨["y.md"], "b"⟩).1 (by simp),
   (write_no_overwrite_idempotent ["x.md"] ⟨["y.md"], "b"⟩).2⟩

/-- When every chunk of `b` has the length of `a`, the inner loop never
panics and collects exactly the cosine similarities of `a` against each
chunk of `b`. -/
theorem innerLoop_ok (a : List ℝ) : ∀ (bChunks : List (List ℝ)),
    (∀ b ∈ bChunks, b.length = a.length) →
    innerLoop a bChunks = .ok (bChunks.map (fun b => cosineSpec a b)) := by
  intro bChunks
  induction bChunks with
  | nil =>
    intro _
    rfl
  | cons b rest ih =>
    intro h
    have hb : a.length = b.length := (h b (by simp)).symm
    have hcos : cosine_similarity a b = .ok (cosineSpec a b) := by
      unfold cosine_similarity cosineSpec
      rw [if_neg (not_ne_iff.mpr hb)]
    rw [innerLoop, hcos, ih (fun x hx => h x (by simp [hx]))]
    rfl

/-- When every chunk of both articles has length `n`, the outer loop never
panics and collects, in order, all cross-pair cosine similarities. -/
theorem outerLoop_ok (n : ℕ) : ∀ (aChunks bChunks : List (List ℝ)),
    (∀ v ∈ aChunks, v.length = n) → (∀ v ∈ bChunks, v.length = n) →
    outerLoop aChunks bChunks =
      .ok ((aChunks.map (fun a => bChunks.map (fun b => cosineSpec a b))).flatten) := by
  intro aChunks
  induction aChunks with
  | nil =>
    intro bChunks _ _
    rfl
  | cons a rest ih =>
    intro bChunks hA hB
    have ha : a.length = n := hA a (by simp)
    have hinner := innerLoop_ok a bChunks (fun b hb => by rw [hB b hb, ha])
    rw [outerLoop, hinner, ih bChunks (fun v hv => hA v (by simp [hv])) hB]
    rw [List.map_cons, List.flatten_cons]

/-- C1: for two articles with at least one chunk each, all of whose stored
chunk embedding vectors share one length, `compare_articles` returns exactly
the spec's `pairSimilarity`: the arithmetic mean, over all cross pairs of
chunks, of the cosine similarity (dot product over product of Euclidean
norms) of the two embeddings. -/
theorem compare_articles_is_mean (aChunks bChunks : List (List ℝ)) (n : ℕ)
    (ha : aChunks ≠ []) (hb : bChunks ≠ [])
    (hA : ∀ v ∈ aChunks, v.length = n) (hB : ∀ v ∈ bChunks, v.length = n) :
    compare_articles aChunks bChunks = .ok (pairSimilaritySpec aChunks bChunks) := by
  unfold compare_articles
  rw [outerLoop_ok n aChunks bChunks hA hB]
  dsimp only
  unfold pairSimilaritySpec
  congr 1
  congr 1
  · rw [List.sum_flatten, List.map_map]
    rfl
  · congr 1
    rw [List.length_flatten, List.map_map]
    have hmap : (aChunks.map (List.length ∘ fun a => bChunks.map (fun b => cosineSpec a b))) =
        aChunks.map (fun _ => bChunks.length) := by
      apply List.map_congr_left
      intro a _
      simp
    rw [hmap, List.map_const', List.sum_replicate, smul_eq_mul]

/-- C1 witness: two articles with a single identical one-dimensional chunk. -/
theorem compare_articles_is_mean_witness :
    ([[(1 : ℝ)]] ≠ ([] : List (List ℝ))) ∧
      compare_articles [[(1 : ℝ)]] [[(1 : ℝ)]] =
        .ok (pairSimilaritySpec [[(1 : ℝ)]] [[(1 : ℝ)]]) :=
  ⟨by simp,
   compare_articles_is_mean [[(1 : ℝ)]] [[(1 : ℝ)]] 1 (by simp) (by simp)
     (by intro v hv; simp at hv; simp [hv]) (by intro v hv; simp at hv; simp [hv])⟩

/-- C2 counterexample: for an article with zero stored chunks compared
against an article with one chunk, `compare_articles` does not propagate an
error: it silently returns `Ok` of the division `0 / 0` (the `f64` code
returns `Ok(NaN)`), refuting the claim that the computation fails. -/
theorem compare_articles_empty_not_error :
    compare_articles ([] : List (List ℝ)) [[(1 : ℝ)]] = .ok (0 / 0) := by
  unfold compare_articles outerLoop
  simp

/-- C2 (amended): when either article has zero stored chunks,
`compare_articles` does not fail: the similarity list is empty and the
function silently returns `Ok` of the division `0 / 0` — `Ok(NaN)` in the
`f64` source — rather than propagating an error. -/
theorem compare_articles_empty_silent (aChunks bChunks : List (List ℝ))
    (h : aChunks = [] ∨ bChunks = []) :
    compare_articles aChunks bChunks = .ok (0 / 0) := by
  have houter : outerLoop aChunks bChunks = .ok [] := by
    rcases h with h | h
    · subst h
      rfl
    · subst h
      induction aChunks with
      | nil => rfl
      | cons a rest ih =>
        rw [outerLoop, show innerLoop a [] = .ok [] from rfl, ih]
        rfl
  unfold compare_articles
  rw [houter]
  simp

/-- C2 (amended) witness: one chunked article against a chunkless one. -/
theorem compare_articles_empty_silent_witness :
    compare_articles [[(1 : ℝ)]] ([] : List (List ℝ)) = .ok (0 / 0) :=
  compare_articles_empty_silent [[(1 : ℝ)]] [] (Or.inr rfl)

/-- C3 counterexample: on two concrete vectors of different lengths,
`cosine_similarity` panics (Rust's `panic!`, a process abort) instead of
returning a recoverable error to the caller — refuting the claim that the
mismatch is reported as an error and that the code does not panic. -/
theorem cosine_mismatch_not_error :
    cosine_similarity [(1 : ℝ)] [1, 2] =
      .panicked "Vectors a and b must be of the same length" := by
  unfold cosine_similarity
  rw [if_pos (by simp)]

/-- C3 (amended): whenever the two compared vectors have different lengths,
`cosine_similarity` panics with the fixed message; it never coerces the
vectors and never produces a similarity value or a recoverable error. -/
theorem cosine_mismatch_panics (a b : List ℝ) (h : a.length ≠ b.length) :
    cosine_similarity a b = .panicked "Vectors a and b must be of the same length" := by
  unfold cosine_similarity
  rw [if_pos h]

/-- C3 (amended) witness: a three-element vector against a one-element one. -/
theorem cosine_mismatch_panics_witness :
    cosine_similarity [(1 : ℝ), 2, 3] [7] =
      .panicked "Vectors a and b must be of the same length" :=
  cosine_mismatch_panics [(1 : ℝ), 2, 3] [7] (by simp)

end HugoAI
